import Mathlib

/-!
# Echo Chambers leaderboard service (`server.js`)

A shallow embedding of the three leaderboard routes of `server.js`

* `GET  /api/scores`                  (`getTopScores`)
* `POST /api/scores`                  (`submitScore`)
* `GET  /api/scores/player/:playerId` (`getPlayerBest`)

together with the JavaScript primitives they rely on: truthiness, `typeof`,
`String.prototype.trim/substring/replace`, `Math.floor`, `Array.prototype.sort`
with the comparator `(a, b) => b.score - a.score`, `slice`, `findIndex`, and the
effect of `JSON.stringify` / `JSON.parse` on the values the routes write.

Conventions.
* A JavaScript string is the list of its UTF-16 code units (`JsString`).
* A finite JavaScript number is the rational it denotes; `Infinity` and
  `-Infinity` are separate values.  `NaN` is not a value of the embedding: a JSON
  request body or file cannot carry it, `Math.floor` does not create it, and where
  it arises as the result of the comparator it is represented by `none`.
* The file system is the environment: the collection returned by
  `readLeaderboard().scores` is a parameter of every route, and whether
  `fs.writeFileSync` succeeds is a boolean parameter of `submitScore`. A run of
  the service (`run`) threads the content of the file through the submissions.
-/

namespace Leaderboard

/-! ## JavaScript values -/

/-- UTF-16 code units of a JavaScript string. -/
abbrev JsString := List Nat

/-- Numbers that `JSON.parse` can produce: finite values, and the two infinities
(from literals such as `1e999`). -/
inductive JsNum where
  | fin (q : ℚ)
  | posInf
  | negInf
  deriving DecidableEq

/-- Where an object or array was parsed from: the body of the request being handled,
or the leaderboard file. -/
inductive Origin where
  | body
  | file
  deriving DecidableEq

/-- Values of a field of a parsed JSON body or of a stored entry; `undefined` is a
missing field, and `obj` is an object or array. The handlers compare an object by
reference only, and only the `playerId` of the body with the `playerId` of an entry:
the entry holds that very object when it is the new entry (`obj .body`), and an object
parsed from the file otherwise (`obj .file`). -/
inductive JsVal where
  | undefined
  | null
  | bool (b : Bool)
  | num (n : JsNum)
  | str (s : JsString)
  | obj (origin : Origin)
  deriving DecidableEq

/-- ToBoolean: `!v` is `!(truthy v)`. -/
def JsVal.truthy : JsVal → Bool
  | .undefined => false
  | .null => false
  | .bool b => b
  | .num (.fin q) => decide (q ≠ 0)
  | .num _ => true
  | .str s => decide (s ≠ [])
  | .obj _ => true

/-- The test `typeof v === 'number'`. -/
def JsVal.isNumber : JsVal → Bool
  | .num _ => true
  | _ => false

/-- Integral or infinite numbers: the values of `Math.floor`. -/
inductive Num where
  | int (z : ℤ)
  | posInf
  | negInf
  deriving DecidableEq

/-- The `score` field of an entry held in memory or read from the file. The service
writes values of `Math.floor` only, and `JSON.stringify` writes an infinite one as
`null`. -/
inductive Score where
  | num (n : Num)
  | null
  deriving DecidableEq

/-- The function `Math.floor`. -/
def mathFloor : JsNum → Num
  | .fin q => .int ⌊q⌋
  | .posInf => .posInf
  | .negInf => .negInf

/-- ToNumber on a score: `null` converts to `0`. -/
def Score.toNumber : Score → Num
  | .num n => n
  | .null => .int 0

/-- Subtraction `x - y` of numbers; `none` is `NaN`. -/
def Num.sub : Num → Num → Option Num
  | .int a, .int b => some (.int (a - b))
  | .posInf, .posInf => none
  | .negInf, .negInf => none
  | .posInf, _ => some .posInf
  | .negInf, _ => some .negInf
  | .int _, .posInf => some .negInf
  | .int _, .negInf => some .posInf

/-- The test `v > 0` that `sort` applies to a comparator result; a `NaN` result
counts as `0`. -/
def isPositive : Option Num → Bool
  | some (.int z) => decide (0 < z)
  | some .posInf => true
  | some .negInf => false
  | none => false

/-- Order of numbers, `x ≤ y`. -/
def Num.le : Num → Num → Bool
  | .int a, .int b => decide (a ≤ b)
  | .negInf, _ => true
  | _, .posInf => true
  | _, _ => false

/-! ## Entries and sanitisation -/

/-- One element of `data.scores`. The `playerId` is stored as submitted, so it is any
truthy JSON value. -/
structure Entry where
  name : JsString
  score : Score
  playerId : JsVal
  date : JsString
  deriving DecidableEq

/-- Code units removed by `String.prototype.trim` (WhiteSpace and
LineTerminator). -/
def isWhiteSpace (c : Nat) : Bool :=
  c == 0x09 || c == 0x0A || c == 0x0B || c == 0x0C || c == 0x0D || c == 0x20 ||
  c == 0xA0 || c == 0x1680 || (0x2000 ≤ c && c ≤ 0x200A) || c == 0x2028 ||
  c == 0x2029 || c == 0x202F || c == 0x205F || c == 0x3000 || c == 0xFEFF

/-- The method call `s.trim()`. -/
def trim (s : JsString) : JsString :=
  (s.dropWhile isWhiteSpace).rdropWhile isWhiteSpace

/-- The method call `s.substring(0, 15)`. -/
def substring15 (s : JsString) : JsString := s.take 15

/-- The test of the character class `[<>]`. -/
def isAngle (c : Nat) : Bool := c == 0x3C || c == 0x3E

/-- The method call `s.replace(/[<>]/g, '')`. -/
def stripAngles (s : JsString) : JsString := s.filter (fun c => !isAngle c)

/-- The expression `name.trim().substring(0, 15).replace(/[<>]/g, '')`. -/
def sanitizeName (name : JsString) : JsString :=
  stripAngles (substring15 (trim name))

/-! ## Sorting -/

/-- The comparator `(a, b) => b.score - a.score`. -/
def compareFn (a b : Entry) : Option Num :=
  b.score.toNumber.sub a.score.toNumber

/-- Insertion of `x` behind every element that `compareFn` does not order after
it. -/
def insertEntry (x : Entry) : List Entry → List Entry
  | [] => [x]
  | y :: ys => if isPositive (compareFn y x) then x :: y :: ys else y :: insertEntry x ys

/-- The call `scores.sort((a, b) => b.score - a.score)`: the stable sort of ECMAScript,
realised as insertion from left to right. -/
def sortScores (l : List Entry) : List Entry :=
  l.foldl (fun acc x => insertEntry x acc) []

/-- The method `Array.prototype.findIndex`: the first index satisfying `p`, or `-1`. -/
def findIndex (p : Entry → Bool) (l : List Entry) : ℤ :=
  match l.findIdx? p with
  | some i => (i : ℤ)
  | none => -1

/-! ## Routes -/

/-- Body of a `POST /api/scores` request after `const { name, score, playerId } =
req.body`. -/
structure Request where
  name : JsVal
  score : JsVal
  playerId : JsVal

/-- The two 400 responses. -/
inductive ValidationError where
  | invalidData
  | nameRequired
  deriving DecidableEq

/-- What `POST /api/scores` does. `saved scores rank entry` is the 200 response
`{ success: true, rank, entry }`, with `scores` the array `data.scores` handed to
`writeLeaderboard`. `threw` is an uncaught `TypeError` (`name.trim` is not a
function). -/
inductive Outcome where
  | invalid (e : ValidationError)
  | threw
  | saveFailed
  | saved (scores : List Entry) (rank : ℤ) (entry : Entry)
  deriving DecidableEq

/-- The object `newEntry`. -/
def newEntry (sanitizedName : JsString) (score : JsNum) (playerId : JsVal)
    (now : JsString) : Entry :=
  { name := sanitizedName, score := .num (mathFloor score), playerId := playerId, date := now }

/-- The predicate passed to `findIndex`. -/
def matchesSubmission (playerId : JsVal) (e : Entry) (s : Entry) : Bool :=
  decide (s.playerId = playerId) && decide (s.score = e.score) && decide (s.date = e.date)

/-- Handler of `POST /api/scores`, on the loaded collection `stored`, at time
`now` (`new Date().toISOString()`), with `writeOk` the result of
`writeLeaderboard`. -/
def submitScore (stored : List Entry) (req : Request) (now : JsString) (writeOk : Bool) :
    Outcome :=
  if !req.name.truthy || !req.score.isNumber || !req.playerId.truthy then
    .invalid .invalidData
  else
    match req.name, req.score with
    | .str name, .num score =>
      let sanitizedName := sanitizeName name
      if sanitizedName.length = 0 then
        .invalid .nameRequired
      else
        let e := newEntry sanitizedName score req.playerId now
        let scores := (sortScores (stored ++ [e])).take 100
        if writeOk then
          .saved scores (findIndex (matchesSubmission req.playerId e) scores + 1) e
        else
          .saveFailed
    | _, _ => .threw

/-- Handler of `GET /api/scores`. -/
def getTopScores (stored : List Entry) : List Entry :=
  (sortScores stored).take 10

/-- Handler of `GET /api/scores/player/:playerId`; `none` is the response
`null`. A route parameter is always a string. -/
def getPlayerBest (stored : List Entry) (playerId : JsString) : Option Entry :=
  match sortScores (stored.filter (fun s => decide (s.playerId = .str playerId))) with
  | [] => none
  | s :: _ => some s

/-! ## The durable record -/

/-- Effect of `JSON.stringify` followed by `JSON.parse` on a number: the infinities are
written as `null`. -/
def jsonScore : Score → Score
  | .num (.int z) => .num (.int z)
  | .num _ => .null
  | .null => .null

/-- Effect of `JSON.stringify` followed by `JSON.parse` on a `playerId`: an infinite
number is written as `null`, and an object is read back as a new object parsed from
the file. -/
def jsonVal : JsVal → JsVal
  | .num (.fin q) => .num (.fin q)
  | .num _ => .null
  | .obj _ => .obj .file
  | v => v

/-- An entry as it is read back from the file. -/
def jsonEntry (e : Entry) : Entry :=
  { name := e.name, score := jsonScore e.score, playerId := jsonVal e.playerId, date := e.date }

/-- The collection `readLeaderboard().scores`: the content of the file, or the empty
collection when reading or parsing the file fails. -/
def readLeaderboard (file : List Entry) (readOk : Bool) : List Entry :=
  if readOk then file else []

/-- One submission in a run of the service: the body, the clock, whether the file
could be read and whether it could be written. -/
structure Submission where
  req : Request
  now : JsString
  readOk : Bool
  writeOk : Bool

/-- The collection in the file after a submission: the written array as it is read
back when the write succeeded, the previous content otherwise. -/
def step (file : List Entry) (s : Submission) : List Entry :=
  match submitScore (readLeaderboard file s.readOk) s.req s.now s.writeOk with
  | .saved scores _ _ => scores.map jsonEntry
  | _ => file

/-- The collection in the file after a sequence of submissions. -/
def run (stored : List Entry) (subs : List Submission) : List Entry :=
  subs.foldl step stored

/-! ## Sample data -/

/-- The timestamp `2024-01-01T00:00:00.000Z`. -/
def sampleDate : JsString :=
  [50, 48, 50, 52, 45, 48, 49, 45, 48, 49, 84, 48, 48, 58, 48, 48, 58, 48, 48, 46, 48, 48, 48, 90]

/-- The timestamp `2024-01-01T00:00:01.000Z`. -/
def sampleDate2 : JsString :=
  [50, 48, 50, 52, 45, 48, 49, 45, 48, 49, 84, 48, 48, 58, 48, 48, 58, 48, 49, 46, 48, 48, 48, 90]

/-! ## Predicates used in the statements -/

/-- The score of the entry is an integer. -/
def Entry.hasIntScore (e : Entry) : Prop := ∃ z : ℤ, e.score = .num (.int z)

/-- The score of `a` is at least that of `b`. -/
def scoreGE (a b : Entry) : Prop := Num.le b.score.toNumber a.score.toNumber = true

/-- Sorted by score in non-increasing order. -/
def SortedDesc (l : List Entry) : Prop := l.Pairwise scoreGE

instance : DecidableRel scoreGE := fun a b =>
  inferInstanceAs (Decidable (Num.le b.score.toNumber a.score.toNumber = true))

instance (l : List Entry) : Decidable (SortedDesc l) :=
  inferInstanceAs (Decidable (l.Pairwise scoreGE))

/-- The submitted score is not one of the infinities. -/
def Request.finiteScore (req : Request) : Prop :=
  req.score ≠ .num .posInf ∧ req.score ≠ .num .negInf

/-- The string has no leading and no trailing white space. -/
def Trimmed (s : JsString) : Prop :=
  (∀ c ∈ s.head?, isWhiteSpace c = false) ∧ (∀ c ∈ s.getLast?, isWhiteSpace c = false)

instance (s : JsString) : Decidable (Trimmed s) :=
  inferInstanceAs (Decidable ((∀ c ∈ s.head?, isWhiteSpace c = false) ∧
    (∀ c ∈ s.getLast?, isWhiteSpace c = false)))

/-! ## Order of scores -/

theorem Num.le_refl (a : Num) : Num.le a a = true := by
  cases a <;> simp [Num.le]

theorem Num.le_total (a b : Num) : Num.le a b = true ∨ Num.le b a = true := by
  cases a <;> cases b <;> simp [Num.le]
  exact Int.le_total _ _

theorem Num.le_trans {a b c : Num} (hab : Num.le a b = true) (hbc : Num.le b c = true) :
    Num.le a c = true := by
  cases a <;> cases b <;> cases c <;> simp_all [Num.le]
  omega

theorem isPositive_sub (x y : Num) : isPositive (x.sub y) = !Num.le x y := by
  cases x <;> cases y <;> simp [Num.sub, isPositive, Num.le]
  rename_i a b
  by_cases h : a ≤ b
  · simp [h]
  · simp [h]; omega

theorem isPositive_compareFn (y x : Entry) :
    isPositive (compareFn y x) = !Num.le x.score.toNumber y.score.toNumber := by
  simp [compareFn, isPositive_sub]

theorem scoreGE_trans {a b c : Entry} (hab : scoreGE a b) (hbc : scoreGE b c) : scoreGE a c :=
  Num.le_trans hbc hab

theorem scoreGE_of_not_positive {y x : Entry} (h : isPositive (compareFn y x) = false) :
    scoreGE y x := by
  simpa [isPositive_compareFn, scoreGE] using h

theorem not_scoreGE_of_positive {y x : Entry} (h : isPositive (compareFn y x) = true) :
    ¬ scoreGE y x := by
  simpa [isPositive_compareFn, scoreGE] using h

theorem scoreGE_of_positive {y x : Entry} (h : isPositive (compareFn y x) = true) :
    scoreGE x y := by
  have := not_scoreGE_of_positive h
  rcases Num.le_total x.score.toNumber y.score.toNumber with h1 | h1
  · exact absurd h1 this
  · exact h1

/-! ## Insertion and sorting -/

theorem insertEntry_eq (x : Entry) (l : List Entry) :
    insertEntry x l =
      l.takeWhile (fun y => !isPositive (compareFn y x)) ++
        x :: l.dropWhile (fun y => !isPositive (compareFn y x)) := by
  induction l with
  | nil => rfl
  | cons y ys ih =>
    by_cases h : isPositive (compareFn y x) = true
    · simp [insertEntry, h, List.takeWhile, List.dropWhile]
    · simp only [Bool.not_eq_true] at h
      simp [insertEntry, h, List.takeWhile, List.dropWhile, ih]

theorem insertEntry_perm (x : Entry) (l : List Entry) : (insertEntry x l).Perm (x :: l) := by
  rw [insertEntry_eq]
  refine (List.perm_middle).trans ?_
  rw [List.takeWhile_append_dropWhile]

theorem sortScores_concat (l : List Entry) (x : Entry) :
    sortScores (l ++ [x]) = insertEntry x (sortScores l) := by
  simp [sortScores, List.foldl_append]

theorem sortScores_nil : sortScores [] = [] := rfl

theorem sortScores_perm (l : List Entry) : (sortScores l).Perm l := by
  induction l using List.reverseRecOn with
  | nil => exact List.Perm.refl _
  | append_singleton l x ih =>
    rw [sortScores_concat]
    refine (insertEntry_perm x _).trans ?_
    refine (List.Perm.cons x ih).trans ?_
    exact (List.perm_append_singleton x l).symm

theorem length_sortScores (l : List Entry) : (sortScores l).length = l.length :=
  (sortScores_perm l).length_eq

theorem mem_sortScores {l : List Entry} {e : Entry} : e ∈ sortScores l ↔ e ∈ l :=
  (sortScores_perm l).mem_iff

theorem insertEntry_sorted (x : Entry) {l : List Entry} (h : SortedDesc l) :
    SortedDesc (insertEntry x l) := by
  induction l with
  | nil => simp [insertEntry, SortedDesc]
  | cons y ys ih =>
    unfold SortedDesc at h ih ⊢
    rw [List.pairwise_cons] at h
    by_cases hp : isPositive (compareFn y x) = true
    · simp only [insertEntry, hp, if_true]
      refine List.pairwise_cons.2 ⟨?_, List.pairwise_cons.2 h⟩
      intro z hz
      rcases List.mem_cons.1 hz with rfl | hz
      · exact scoreGE_of_positive hp
      · exact scoreGE_trans (scoreGE_of_positive hp) (h.1 z hz)
    · simp only [Bool.not_eq_true] at hp
      simp only [insertEntry, hp]
      refine List.pairwise_cons.2 ⟨?_, ih h.2⟩
      intro z hz
      rcases List.mem_cons.1 ((insertEntry_perm x ys).mem_iff.1 hz) with rfl | hz
      · exact scoreGE_of_not_positive hp
      · exact h.1 z hz

theorem sortScores_sorted (l : List Entry) : SortedDesc (sortScores l) := by
  induction l using List.reverseRecOn with
  | nil => simp [sortScores, SortedDesc]
  | append_singleton l x ih =>
    rw [sortScores_concat]
    exact insertEntry_sorted x ih

/-! ## The handler of `POST /api/scores` -/

theorem submitScore_valid (stored : List Entry) (name : JsString) (score : JsNum)
    (playerId : JsVal) (now : JsString) (hname : sanitizeName name ≠ [])
    (hid : playerId.truthy = true) :
    submitScore stored ⟨.str name, .num score, playerId⟩ now true =
      .saved ((sortScores (stored ++ [newEntry (sanitizeName name) score playerId now])).take 100)
        (findIndex (matchesSubmission playerId (newEntry (sanitizeName name) score playerId now))
          ((sortScores (stored ++ [newEntry (sanitizeName name) score playerId now])).take 100) + 1)
        (newEntry (sanitizeName name) score playerId now) := by
  have hne : name ≠ [] := by
    rintro rfl
    exact hname (by simp [sanitizeName, trim, substring15, stripAngles, List.rdropWhile])
  have hn : (JsVal.str name).truthy = true := by simp [JsVal.truthy, hne]
  simp [submitScore, hn, JsVal.isNumber, hid, hname]

theorem submitScore_saved {stored : List Entry} {req : Request} {now : JsString} {w : Bool}
    {scores : List Entry} {rank : ℤ} {e : Entry}
    (h : submitScore stored req now w = .saved scores rank e) :
    ∃ name score, req.name = .str name ∧ req.score = .num score ∧
      req.playerId.truthy = true ∧ sanitizeName name ≠ [] ∧ w = true ∧
      e = newEntry (sanitizeName name) score req.playerId now ∧
      scores = (sortScores (stored ++ [e])).take 100 ∧
      rank = findIndex (matchesSubmission req.playerId e) scores + 1 := by
  unfold submitScore at h
  split at h
  · cases h
  · rename_i hg
    split at h
    · rename_i name score hn hs
      simp only at h
      split at h
      · cases h
      · rename_i hlen
        split at h
        · rename_i hw
          injection h with h1 h2 h3
          refine ⟨name, score, hn, hs, ?_, ?_, hw, h3.symm, ?_, ?_⟩
          · simp only [Bool.or_eq_true, Bool.not_eq_true', not_or, Bool.not_eq_false] at hg
            exact hg.2
          · intro h0; exact hlen (by simp [h0])
          · rw [← h3]; exact h1.symm
          · rw [← h3, ← h1]; exact h2.symm
        · cases h
    · cases h

/-! ## Sanitised names -/

theorem length_sanitizeName_le (name : JsString) : (sanitizeName name).length ≤ 15 := by
  unfold sanitizeName stripAngles substring15
  exact (List.length_filter_le _ _).trans (by simp)

theorem not_angle_of_mem_sanitizeName {name : JsString} {c : Nat}
    (h : c ∈ sanitizeName name) : c ≠ 0x3C ∧ c ≠ 0x3E := by
  unfold sanitizeName stripAngles at h
  have := (List.mem_filter.1 h).2
  simpa [isAngle] using this


theorem truthy_eq_false_iff (v : JsVal) :
    v.truthy = false ↔
      v = .undefined ∨ v = .null ∨ v = .bool false ∨ v = .num (.fin 0) ∨ v = .str [] := by
  cases v with
  | undefined => simp [JsVal.truthy]
  | null => simp [JsVal.truthy]
  | bool b => simp [JsVal.truthy]
  | num n => cases n <;> simp [JsVal.truthy]
  | str s => simp [JsVal.truthy]
  | obj r => simp [JsVal.truthy]

theorem submitScore_invalid_iff_aux (stored : List Entry) (req : Request) (now : JsString)
    (w : Bool) :
    (∃ err, submitScore stored req now w = .invalid err) ↔
      (req.name.truthy = false ∨ req.score.isNumber = false ∨ req.playerId.truthy = false ∨
        ∃ n, req.name = .str n ∧ sanitizeName n = []) := by
  obtain ⟨name, score, playerId⟩ := req
  by_cases hg : (!name.truthy || !score.isNumber || !playerId.truthy) = true
  · have h1 : submitScore stored ⟨name, score, playerId⟩ now w = .invalid .invalidData := by
      simp only [submitScore]; rw [if_pos hg]
    constructor
    · intro _
      simp only [Bool.or_eq_true, Bool.not_eq_true'] at hg
      rcases hg with (h | h) | h
      · exact Or.inl h
      · exact Or.inr (Or.inl h)
      · exact Or.inr (Or.inr (Or.inl h))
    · intro _; exact ⟨_, h1⟩
  · have hg' := hg
    simp only [Bool.or_eq_true, Bool.not_eq_true', not_or, Bool.not_eq_false] at hg'
    obtain ⟨⟨hn, hs⟩, hp⟩ := hg'
    cases score with
    | num x =>
      cases name with
      | str n =>
        by_cases hlen : (sanitizeName n).length = 0
        · have h1 : submitScore stored ⟨.str n, .num x, playerId⟩ now w =
              .invalid .nameRequired := by
            simp only [submitScore]; rw [if_neg hg]; simp [hlen]
          constructor
          · intro _
            exact Or.inr (Or.inr (Or.inr ⟨n, rfl, List.length_eq_zero.1 hlen⟩))
          · intro _; exact ⟨_, h1⟩
        · have h1 : ∀ err, submitScore stored ⟨.str n, .num x, playerId⟩ now w ≠
              .invalid err := by
            intro err
            simp only [submitScore]; rw [if_neg hg]
            simp only [hlen, if_false]
            cases w <;> simp
          constructor
          · rintro ⟨err, he⟩; exact absurd he (h1 err)
          · rintro (h | h | h | ⟨m, hm, hm'⟩)
            · simp [hn] at h
            · simp [hs] at h
            · simp [hp] at h
            · cases hm
              exact absurd (by simp [hm']) hlen
      | undefined => simp [JsVal.truthy] at hn
      | null => simp [JsVal.truthy] at hn
      | bool b =>
        have h1 : submitScore stored ⟨.bool b, .num x, playerId⟩ now w = .threw := by
          simp only [submitScore]; rw [if_neg hg]
        simp [h1, hn, hs, hp]
      | num y =>
        have h1 : submitScore stored ⟨.num y, .num x, playerId⟩ now w = .threw := by
          simp only [submitScore]; rw [if_neg hg]
        simp [h1, hn, hs, hp]
      | obj r =>
        have h1 : submitScore stored ⟨.obj r, .num x, playerId⟩ now w = .threw := by
          simp only [submitScore]; rw [if_neg hg]
        simp [h1, hn, hs, hp]
    | undefined => simp [JsVal.isNumber] at hs
    | null => simp [JsVal.isNumber] at hs
    | bool b => simp [JsVal.isNumber] at hs
    | str s => simp [JsVal.isNumber] at hs
    | obj r => simp [JsVal.isNumber] at hs

/-! ## Runs of the service -/

theorem mem_of_mem_saved {stored : List Entry} {req : Request} {now : JsString} {w : Bool}
    {scores : List Entry} {rank : ℤ} {e x : Entry}
    (h : submitScore stored req now w = .saved scores rank e) (hx : x ∈ scores) :
    x ∈ stored ∨ x = e := by
  obtain ⟨name, score, -, -, -, -, -, -, hs, -⟩ := submitScore_saved h
  rw [hs] at hx
  have := mem_sortScores.1 (List.mem_of_mem_take hx)
  simpa using this

theorem mem_of_mem_readLeaderboard {file : List Entry} {readOk : Bool} {x : Entry}
    (h : x ∈ readLeaderboard file readOk) : x ∈ file := by
  cases readOk
  · simp [readLeaderboard] at h
  · simpa [readLeaderboard] using h

theorem step_cases (file : List Entry) (s : Submission) :
    step file s = file ∨
      ∃ scores rank e,
        submitScore (readLeaderboard file s.readOk) s.req s.now s.writeOk =
          .saved scores rank e ∧
        step file s = scores.map jsonEntry := by
  unfold step
  cases h : submitScore (readLeaderboard file s.readOk) s.req s.now s.writeOk with
  | invalid err => exact Or.inl rfl
  | threw => exact Or.inl rfl
  | saveFailed => exact Or.inl rfl
  | saved scores rank e => exact Or.inr ⟨scores, rank, e, rfl, rfl⟩

theorem run_concat (stored : List Entry) (subs : List Submission) (s : Submission) :
    run stored (subs ++ [s]) = step (run stored subs) s := by
  simp [run, List.foldl_append]

theorem run_invariant (P : List Entry → Prop) (subs : List Submission)
    (hstep : ∀ stored, P stored → ∀ s ∈ subs, P (step stored s)) :
    ∀ stored, P stored → P (run stored subs) := by
  induction subs using List.reverseRecOn with
  | nil => intro stored h; exact h
  | append_singleton subs s ih =>
    intro stored h
    rw [run_concat]
    refine hstep _ (ih (fun st hst t ht => hstep st hst t ?_) stored h) s ?_
    · exact List.mem_append_left _ ht
    · simp

/-! ## Validation (C2) -/

/-- C2, counterexample: the body `{"name": false, "score": 1, "playerId": "p1"}` is
rejected with the 400 response `Invalid data`, although its name is neither missing
nor the empty string, its score is a number, its playerId is neither missing nor
empty, and no sanitised name exists that could be empty. -/
theorem submitScore_rejects_false_name :
    submitScore [] ⟨.bool false, .num (.fin 1), .str [112, 49]⟩ sampleDate true =
        .invalid .invalidData ∧
      ¬ ((JsVal.bool false = .undefined ∨ JsVal.bool false = .str []) ∨
          (JsVal.num (.fin 1)).isNumber = false ∨
          (JsVal.str [112, 49] = .undefined ∨ JsVal.str [112, 49] = .str []) ∨
          ∃ n, JsVal.bool false = .str n ∧ sanitizeName n = []) := by
  refine ⟨by simp [submitScore, JsVal.truthy], ?_⟩
  simp [JsVal.isNumber]

/-- C2, amended: `submitScore` answers with a validation error (HTTP 400) if and only
if `name` is falsy, or `score` is not of type number, or `playerId` is falsy, or
`name` is a string whose sanitisation (trim, first 15 code units, `<` and `>`
removed) is empty; the falsy values are a missing field, `null`, `false`, `0` and the
empty string. In particular the names `""` and `"   "`, a missing score, a score that
is a string, a boolean, `null` or an object, and a missing playerId are each
rejected. -/
theorem submitScore_validationError_iff (stored : List Entry) (req : Request)
    (now : JsString) (w : Bool) :
    ((∃ err, submitScore stored req now w = .invalid err) ↔
      (req.name.truthy = false ∨ req.score.isNumber = false ∨ req.playerId.truthy = false ∨
        ∃ n, req.name = .str n ∧ sanitizeName n = [])) ∧
    (∀ v : JsVal, v.truthy = false ↔
      v = .undefined ∨ v = .null ∨ v = .bool false ∨ v = .num (.fin 0) ∨ v = .str []) ∧
    (∃ err, submitScore stored ⟨.str [], req.score, req.playerId⟩ now w = .invalid err) ∧
    (∃ err, submitScore stored ⟨.str [32, 32, 32], req.score, req.playerId⟩ now w =
      .invalid err) ∧
    (∃ err, submitScore stored ⟨req.name, .undefined, req.playerId⟩ now w = .invalid err) ∧
    (∀ s, ∃ err, submitScore stored ⟨req.name, .str s, req.playerId⟩ now w = .invalid err) ∧
    (∀ b, ∃ err, submitScore stored ⟨req.name, .bool b, req.playerId⟩ now w = .invalid err) ∧
    (∃ err, submitScore stored ⟨req.name, .null, req.playerId⟩ now w = .invalid err) ∧
    (∀ r, ∃ err, submitScore stored ⟨req.name, .obj r, req.playerId⟩ now w = .invalid err) ∧
    (∃ err, submitScore stored ⟨req.name, req.score, .undefined⟩ now w = .invalid err) := by
  refine ⟨submitScore_invalid_iff_aux stored req now w, truthy_eq_false_iff, ?_, ?_, ?_, ?_, ?_,
    ?_, ?_, ?_⟩
  · exact (submitScore_invalid_iff_aux _ _ _ _).2 (Or.inl (by simp [JsVal.truthy]))
  · refine (submitScore_invalid_iff_aux _ _ _ _).2 (Or.inr (Or.inr (Or.inr ⟨_, rfl, ?_⟩)))
    decide
  · exact (submitScore_invalid_iff_aux _ _ _ _).2 (Or.inr (Or.inl rfl))
  · intro s; exact (submitScore_invalid_iff_aux _ _ _ _).2 (Or.inr (Or.inl rfl))
  · intro b; exact (submitScore_invalid_iff_aux _ _ _ _).2 (Or.inr (Or.inl rfl))
  · exact (submitScore_invalid_iff_aux _ _ _ _).2 (Or.inr (Or.inl rfl))
  · intro r; exact (submitScore_invalid_iff_aux _ _ _ _).2 (Or.inr (Or.inl rfl))
  · exact (submitScore_invalid_iff_aux _ _ _ _).2 (Or.inr (Or.inr (Or.inl rfl)))

/-! ## Scores and names of accepted submissions (C3, C4) -/

/-- C3: for every valid submission (a string name with non-empty sanitisation, a
truthy playerId) with a finite score `q`, a successful write answers with an entry
whose score is the integer `⌊q⌋`, the greatest integer not exceeding `q`, and this
entry is the one appended to the stored collection before sorting and truncation;
`42.9` gives `42` and `-1.5` gives `-2`. -/
theorem submitScore_score_floor (stored : List Entry) (name : JsString) (q : ℚ)
    (playerId : JsVal) (now : JsString) (hname : sanitizeName name ≠ [])
    (hid : playerId.truthy = true) :
    (∃ scores rank e,
      submitScore stored ⟨.str name, .num (.fin q), playerId⟩ now true = .saved scores rank e ∧
      e.score = .num (.int ⌊q⌋) ∧
      scores = (sortScores (stored ++ [e])).take 100) ∧
    ((⌊q⌋ : ℚ) ≤ q ∧ ∀ z : ℤ, (z : ℚ) ≤ q → z ≤ ⌊q⌋) ∧
    mathFloor (.fin (429 / 10)) = .int 42 ∧ mathFloor (.fin (-3 / 2)) = .int (-2) := by
  refine ⟨⟨_, _, _, submitScore_valid stored name (.fin q) playerId now hname hid, rfl, rfl⟩,
    ⟨Int.floor_le q, fun z hz => Int.le_floor.2 hz⟩, ?_, ?_⟩
  · simp [mathFloor, Int.floor_eq_iff]; norm_num
  · simp [mathFloor, Int.floor_eq_iff]; norm_num

/-- C3, witness: the body `{"name": "Ann", "score": 42.9, "playerId": "p1"}`. -/
theorem submitScore_score_floor_witness :
    sanitizeName [65, 110, 110] ≠ [] ∧ (JsVal.str [112, 49]).truthy = true ∧
    ∃ scores rank e,
      submitScore [] ⟨.str [65, 110, 110], .num (.fin (429 / 10)), .str [112, 49]⟩ sampleDate
        true = .saved scores rank e ∧
      e.score = .num (.int ⌊(429 / 10 : ℚ)⌋) ∧
      scores = (sortScores ([] ++ [e])).take 100 :=
  ⟨by decide, by decide,
    (submitScore_score_floor [] [65, 110, 110] (429 / 10) (.str [112, 49]) sampleDate
      (by decide) (by decide)).1⟩

/-- C4: the name of the entry answered and appended by an accepted submission is
non-empty, has at most 15 code units and contains neither `<` nor `>`; and starting
from the empty store no run of submissions leaves an entry with an empty name in the
file. -/
theorem submitScore_name_sanitized (stored : List Entry) (req : Request) (now : JsString)
    (w : Bool) (scores : List Entry) (rank : ℤ) (e : Entry) (subs : List Submission)
    (h : submitScore stored req now w = .saved scores rank e) :
    (e.name ≠ [] ∧ e.name.length ≤ 15 ∧ ∀ c ∈ e.name, c ≠ 0x3C ∧ c ≠ 0x3E) ∧
    ∀ x ∈ run [] subs, x.name ≠ [] := by
  constructor
  · obtain ⟨name, score, -, -, -, hname, -, he, -, -⟩ := submitScore_saved h
    subst he
    exact ⟨hname, length_sanitizeName_le name, fun c hc => not_angle_of_mem_sanitizeName hc⟩
  · refine run_invariant (fun l => ∀ x ∈ l, x.name ≠ []) subs ?_ [] (by simp)
    intro st hst s _
    rcases step_cases st s with h1 | ⟨sc, rk, e1, h1, h2⟩
    · rw [h1]; exact hst
    · rw [h2]
      intro x hx
      obtain ⟨y, hy, rfl⟩ := List.mem_map.1 hx
      show y.name ≠ []
      rcases mem_of_mem_saved h1 hy with hy | rfl
      · exact hst y (mem_of_mem_readLeaderboard hy)
      · obtain ⟨name, score, -, -, -, hname, -, he, -, -⟩ := submitScore_saved h1
        subst he
        exact hname

/-- C4, witness: the body `{"name": "  <b>Ann</b>  ", "score": 7, "playerId": "p1"}`
sent to the empty store. -/
theorem submitScore_name_sanitized_witness :
    (newEntry [98, 65, 110, 110, 47, 98] (.fin 7) (.str [112, 49]) sampleDate).name ≠ [] ∧
    (newEntry [98, 65, 110, 110, 47, 98] (.fin 7) (.str [112, 49]) sampleDate).name.length ≤ 15 :=
  have h := submitScore_name_sanitized []
    ⟨.str [32, 32, 60, 98, 62, 65, 110, 110, 60, 47, 98, 62, 32, 32], .num (.fin 7),
      .str [112, 49]⟩ sampleDate true _ _ _ []
    (submitScore_valid [] [32, 32, 60, 98, 62, 65, 110, 110, 60, 47, 98, 62, 32, 32] (.fin 7)
      (.str [112, 49]) sampleDate (by decide) (by decide))
  ⟨h.1.1, h.1.2.1⟩

/-! ## Trimming (C9) -/

theorem trimmed_trim (s : JsString) : Trimmed (trim s) := by
  constructor
  · intro c hc
    have hc : (trim s).head? = some c := hc
    have hne : trim s ≠ [] := by intro h0; simp [h0] at hc
    have hpre : trim s <+: s.dropWhile isWhiteSpace := List.rdropWhile_prefix _ _
    have h1 := hpre.head hne
    have h2 := List.head_dropWhile_not isWhiteSpace s (hpre.ne_nil hne)
    rw [List.head?_eq_head hne] at hc
    injection hc with hc
    rw [← hc, h1]; exact h2
  · intro c hc
    have hc : (trim s).getLast? = some c := hc
    have hne : trim s ≠ [] := by intro h0; simp [h0] at hc
    have h1 := List.rdropWhile_last_not isWhiteSpace (s.dropWhile isWhiteSpace) hne
    rw [List.getLast?_eq_getLast _ hne] at hc
    injection hc with hc
    rw [← hc]
    simpa [trim] using h1

theorem sanitizeName_eq_trim {name : JsString} (hlen : (trim name).length ≤ 15)
    (hangle : ∀ c ∈ trim name, isAngle c = false) : sanitizeName name = trim name := by
  unfold sanitizeName substring15 stripAngles
  rw [List.take_of_length_le hlen, List.filter_eq_self]
  intro c hc
  simp [hangle c hc]

/-- C9, counterexample: the name `a`, fourteen spaces, `b` (16 code units) is accepted
and stored as `a` followed by fourteen spaces, which ends in white space. -/
theorem submitScore_name_trailing_space :
    ∃ scores rank e,
      submitScore [] ⟨.str (97 :: List.replicate 14 32 ++ [98]), .num (.fin 1), .str [112, 49]⟩
        sampleDate true = .saved scores rank e ∧
      e.name = 97 :: List.replicate 14 32 ∧ ¬ Trimmed e.name :=
  ⟨_, _, _, submitScore_valid [] (97 :: List.replicate 14 32 ++ [98]) (.fin 1) (.str [112, 49])
    sampleDate (by decide) (by decide), by decide, by decide⟩

/-- C9, amended: the name of the entry of an accepted submission is the trimmed
submitted name cut to its first 15 code units with `<` and `>` removed; when the
trimmed submitted name has at most 15 code units and contains neither `<` nor `>`,
the stored name is that trimmed name and has no leading and no trailing white
space. -/
theorem submitScore_name_trimmed (stored : List Entry) (req : Request) (now : JsString)
    (w : Bool) (scores : List Entry) (rank : ℤ) (e : Entry)
    (h : submitScore stored req now w = .saved scores rank e) :
    ∃ name, req.name = .str name ∧ Trimmed (trim name) ∧
      e.name = stripAngles ((trim name).take 15) ∧
      ((trim name).length ≤ 15 → (∀ c ∈ trim name, c ≠ 0x3C ∧ c ≠ 0x3E) →
        e.name = trim name ∧ Trimmed e.name) := by
  obtain ⟨name, score, hn, -, -, -, -, he, -, -⟩ := submitScore_saved h
  subst he
  refine ⟨name, hn, trimmed_trim name, rfl, fun hlen hangle => ?_⟩
  have : sanitizeName name = trim name :=
    sanitizeName_eq_trim hlen (fun c hc => by simpa [isAngle] using hangle c hc)
  show sanitizeName name = trim name ∧ Trimmed (sanitizeName name)
  rw [this]
  exact ⟨rfl, trimmed_trim name⟩

/-- C9, witness: the body `{"name": "  Ann  ", "score": 7, "playerId": "p1"}` sent to
the empty store is stored under the name `Ann`. -/
theorem submitScore_name_trimmed_witness :
    ∃ name, JsVal.str [32, 32, 65, 110, 110, 32, 32] = .str name ∧ Trimmed (trim name) ∧
      (newEntry [65, 110, 110] (.fin 7) (.str [112, 49]) sampleDate).name =
        stripAngles ((trim name).take 15) ∧
      ((trim name).length ≤ 15 → (∀ c ∈ trim name, c ≠ 0x3C ∧ c ≠ 0x3E) →
        (newEntry [65, 110, 110] (.fin 7) (.str [112, 49]) sampleDate).name = trim name ∧
          Trimmed (newEntry [65, 110, 110] (.fin 7) (.str [112, 49]) sampleDate).name) :=
  submitScore_name_trimmed [] ⟨.str [32, 32, 65, 110, 110, 32, 32], .num (.fin 7), .str [112, 49]⟩
    sampleDate true _ _ _
    (submitScore_valid [] [32, 32, 65, 110, 110, 32, 32] (.fin 7) (.str [112, 49]) sampleDate
      (by decide) (by decide))

/-! ## The store invariant (C1) -/

theorem SortedDesc.take {l : List Entry} (h : SortedDesc l) (n : Nat) : SortedDesc (l.take n) :=
  List.Pairwise.sublist (List.take_sublist n l) h

theorem saved_length_sorted {stored : List Entry} {req : Request} {now : JsString} {w : Bool}
    {scores : List Entry} {rank : ℤ} {e : Entry}
    (h : submitScore stored req now w = .saved scores rank e) :
    scores.length ≤ 100 ∧ SortedDesc scores := by
  obtain ⟨name, score, -, -, -, -, -, -, hs, -⟩ := submitScore_saved h
  rw [hs]
  exact ⟨by simp [List.length_take], (sortScores_sorted _).take 100⟩

theorem jsonEntry_score_of_int {e : Entry} (h : e.hasIntScore) : (jsonEntry e).score = e.score := by
  obtain ⟨z, hz⟩ := h
  simp [jsonEntry, hz, jsonScore]

theorem sortedDesc_map_jsonEntry {l : List Entry} (hint : ∀ x ∈ l, x.hasIntScore)
    (h : SortedDesc l) : SortedDesc (l.map jsonEntry) := by
  unfold SortedDesc at h ⊢
  rw [List.pairwise_map]
  refine List.Pairwise.imp_of_mem ?_ h
  intro a b ha hb hab
  unfold scoreGE at hab ⊢
  rw [jsonEntry_score_of_int (hint a ha), jsonEntry_score_of_int (hint b hb)]
  exact hab

theorem saved_entry_int {stored : List Entry} {req : Request} {now : JsString} {w : Bool}
    {scores : List Entry} {rank : ℤ} {e : Entry}
    (h : submitScore stored req now w = .saved scores rank e) (hfin : req.finiteScore) :
    e.hasIntScore := by
  obtain ⟨name, score, -, hsc, -, -, -, he, -, -⟩ := submitScore_saved h
  subst he
  cases score with
  | fin q => exact ⟨⌊q⌋, rfl⟩
  | posInf => exact absurd hsc hfin.1
  | negInf => exact absurd hsc hfin.2

theorem saved_all_int {stored : List Entry} {req : Request} {now : JsString} {w : Bool}
    {scores : List Entry} {rank : ℤ} {e : Entry}
    (h : submitScore stored req now w = .saved scores rank e) (hfin : req.finiteScore)
    (hint : ∀ x ∈ stored, x.hasIntScore) : ∀ x ∈ scores, x.hasIntScore := by
  intro x hx
  rcases mem_of_mem_saved h hx with hx | rfl
  · exact hint x hx
  · exact saved_entry_int h hfin

theorem written_invariant {stored : List Entry} {req : Request} {now : JsString} {w : Bool}
    {scores : List Entry} {rank : ℤ} {e : Entry}
    (h : submitScore stored req now w = .saved scores rank e) (hfin : req.finiteScore)
    (hint : ∀ x ∈ stored, x.hasIntScore) :
    (scores.map jsonEntry).length ≤ 100 ∧ SortedDesc (scores.map jsonEntry) ∧
      ∀ x ∈ scores.map jsonEntry, x.hasIntScore := by
  have hall := saved_all_int h hfin hint
  obtain ⟨hlen, hsorted⟩ := saved_length_sorted h
  refine ⟨by simpa using hlen, sortedDesc_map_jsonEntry hall hsorted, ?_⟩
  intro x hx
  obtain ⟨y, hy, rfl⟩ := List.mem_map.1 hx
  obtain ⟨z, hz⟩ := hall y hy
  exact ⟨z, by rw [jsonEntry_score_of_int ⟨z, hz⟩, hz]⟩

theorem run_length_le (subs : List Submission) : (run [] subs).length ≤ 100 := by
  refine run_invariant (fun l => l.length ≤ 100) subs ?_ [] (by simp)
  intro st _ s _
  rcases step_cases st s with h1 | ⟨sc, rk, e1, h1, h2⟩
  · rw [h1]; assumption
  · rw [h2]; simpa using (saved_length_sorted h1).1

theorem run_finite_invariant (subs : List Submission) (hfin : ∀ s ∈ subs, s.req.finiteScore) :
    (run [] subs).length ≤ 100 ∧ SortedDesc (run [] subs) ∧
      ∀ x ∈ run [] subs, x.hasIntScore := by
  refine run_invariant
    (fun l => l.length ≤ 100 ∧ SortedDesc l ∧ ∀ x ∈ l, x.hasIntScore) subs ?_ []
    ⟨by simp, by simp [SortedDesc], by simp⟩
  intro st hst s hs
  rcases step_cases st s with h1 | ⟨sc, rk, e1, h1, h2⟩
  · rw [h1]; exact hst
  · rw [h2]
    exact written_invariant h1 (hfin s hs) (fun x hx => hst.2.2 x (mem_of_mem_readLeaderboard hx))

theorem jsonEntry_idem (e : Entry) : jsonEntry (jsonEntry e) = jsonEntry e := by
  obtain ⟨name, score, playerId, date⟩ := e
  have h1 : jsonScore (jsonScore score) = jsonScore score := by
    cases score with
    | num n => cases n <;> rfl
    | null => rfl
  have h2 : jsonVal (jsonVal playerId) = jsonVal playerId := by
    cases playerId with
    | num n => cases n <;> rfl
    | _ => rfl
  simp [jsonEntry, h1, h2]

/-- Every entry of a file that the service wrote is unchanged by the JSON encoding. -/
theorem run_json_stable (subs : List Submission) : ∀ x ∈ run [] subs, jsonEntry x = x := by
  refine run_invariant (fun l => ∀ x ∈ l, jsonEntry x = x) subs ?_ [] (by simp)
  intro st hst s _
  rcases step_cases st s with h1 | ⟨sc, rk, e1, _, h2⟩
  · rw [h1]; exact hst
  · rw [h2]
    intro x hx
    obtain ⟨y, _, rfl⟩ := List.mem_map.1 hx
    exact jsonEntry_idem y

/-- C1, counterexample: after the bodies `{"name": "A", "score": 5, "playerId": "p1"}`
and `{"name": "B", "score": 1e999, "playerId": "p2"}` (which `JSON.parse` reads as
`Infinity`) the file holds B with score `null` in front of A with score `5`, which is
not in non-increasing order of score. -/
theorem run_infinite_score_unsorted :
    run []
        [⟨⟨.str [65], .num (.fin 5), .str [112, 49]⟩, sampleDate, true, true⟩,
         ⟨⟨.str [66], .num .posInf, .str [112, 50]⟩, sampleDate2, true, true⟩] =
      [⟨[66], .null, .str [112, 50], sampleDate2⟩,
       ⟨[65], .num (.int 5), .str [112, 49], sampleDate⟩] ∧
    ¬ SortedDesc
      [⟨[66], .null, .str [112, 50], sampleDate2⟩,
       ⟨[65], .num (.int 5), .str [112, 49], sampleDate⟩] := by
  constructor <;> decide

/-- C1, amended: for every stored collection and every accepted submission whose write
succeeds, the array handed to the write has at most 100 entries and is sorted by score
in non-increasing order, and the collection read back from the file has at most 100
entries; when the stored entries have integer scores and the submitted score is finite,
the collection read back from the file is sorted by score in non-increasing order and
has integer scores. Hence, starting from the empty store, after any sequence of
submissions the stored collection has at most 100 entries, and it is sorted by score
in non-increasing order when the submitted scores are finite. -/
theorem submitScore_store_invariant (stored : List Entry) (req : Request) (now : JsString)
    (scores : List Entry) (rank : ℤ) (e : Entry) (subs : List Submission) :
    (submitScore stored req now true = .saved scores rank e →
      (scores.length ≤ 100 ∧ SortedDesc scores) ∧
      step stored ⟨req, now, true, true⟩ = scores.map jsonEntry ∧
      (step stored ⟨req, now, true, true⟩).length ≤ 100 ∧
      ((∀ x ∈ stored, x.hasIntScore) → req.finiteScore →
        SortedDesc (step stored ⟨req, now, true, true⟩) ∧
        ∀ x ∈ step stored ⟨req, now, true, true⟩, x.hasIntScore)) ∧
    (run [] subs).length ≤ 100 ∧
    ((∀ s ∈ subs, s.req.finiteScore) →
      SortedDesc (run [] subs) ∧ ∀ x ∈ run [] subs, x.hasIntScore) := by
  refine ⟨fun h => ?_, run_length_le subs, fun hfin => (run_finite_invariant subs hfin).2⟩
  have hstep : step stored ⟨req, now, true, true⟩ = scores.map jsonEntry := by
    simp [step, readLeaderboard, h]
  have hlen := saved_length_sorted h
  refine ⟨hlen, hstep, ?_, fun hint hf => ?_⟩
  · rw [hstep]; simpa using hlen.1
  · rw [hstep]
    exact (written_invariant h hf hint).2

/-- C1, witness: the body `{"name": "Ann", "score": 42.9, "playerId": "p1"}` sent to a
stored collection with the scores 3 and 9, and the run of two submissions from the
empty store. -/
theorem submitScore_store_invariant_witness :
    (∀ x ∈ ([⟨[65], .num (.int 3), .str [112, 49], sampleDate⟩,
        ⟨[66], .num (.int 9), .str [112, 50], sampleDate⟩] : List Entry), x.hasIntScore) ∧
    SortedDesc (step
      [⟨[65], .num (.int 3), .str [112, 49], sampleDate⟩,
        ⟨[66], .num (.int 9), .str [112, 50], sampleDate⟩]
      ⟨⟨.str [65, 110, 110], .num (.fin (429 / 10)), .str [112, 49]⟩, sampleDate2, true, true⟩) ∧
    (run []
      [⟨⟨.str [65, 110, 110], .num (.fin (429 / 10)), .str [112, 49]⟩, sampleDate, true, true⟩,
       ⟨⟨.str [66, 111, 98], .num (.fin 50), .str [112, 50]⟩, sampleDate2, true, true⟩]).length
      ≤ 100 ∧
    SortedDesc (run []
      [⟨⟨.str [65, 110, 110], .num (.fin (429 / 10)), .str [112, 49]⟩, sampleDate, true, true⟩,
       ⟨⟨.str [66, 111, 98], .num (.fin 50), .str [112, 50]⟩, sampleDate2, true, true⟩]) :=
  have hint : ∀ x ∈ ([⟨[65], .num (.int 3), .str [112, 49], sampleDate⟩,
      ⟨[66], .num (.int 9), .str [112, 50], sampleDate⟩] : List Entry), x.hasIntScore := by
    simp [Entry.hasIntScore]
  have h := submitScore_store_invariant
    [⟨[65], .num (.int 3), .str [112, 49], sampleDate⟩,
      ⟨[66], .num (.int 9), .str [112, 50], sampleDate⟩]
    ⟨.str [65, 110, 110], .num (.fin (429 / 10)), .str [112, 49]⟩ sampleDate2 _ _ _
    [⟨⟨.str [65, 110, 110], .num (.fin (429 / 10)), .str [112, 49]⟩, sampleDate, true, true⟩,
      ⟨⟨.str [66, 111, 98], .num (.fin 50), .str [112, 50]⟩, sampleDate2, true, true⟩]
  ⟨hint,
    ((h.1 (submitScore_valid _ [65, 110, 110] (.fin (429 / 10)) (.str [112, 49]) sampleDate2
      (by decide) (by decide))).2.2.2 hint (by simp [Request.finiteScore])).1,
    h.2.1, (h.2.2 (by simp [Request.finiteScore])).1⟩

/-! ## Position of the new entry -/

theorem notAfter_iff (x y : Entry) : (!isPositive (compareFn y x)) = true ↔ scoreGE y x := by
  simp [isPositive_compareFn, scoreGE]

theorem takeWhile_eq_filter_of_sorted (x : Entry) {l : List Entry} (h : SortedDesc l) :
    l.takeWhile (fun y => !isPositive (compareFn y x)) =
      l.filter (fun y => !isPositive (compareFn y x)) := by
  induction l with
  | nil => rfl
  | cons y ys ih =>
    unfold SortedDesc at h ih
    rw [List.pairwise_cons] at h
    cases hp : isPositive (compareFn y x) with
    | false =>
      simp only [List.takeWhile_cons, List.filter_cons, hp, Bool.not_false, if_true]
      rw [ih h.2]
    | true =>
      simp only [List.takeWhile_cons, List.filter_cons, hp, Bool.not_true]
      symm
      simp only [Bool.false_eq_true, if_false]
      rw [List.filter_eq_nil_iff]
      intro z hz hpz
      have hyx : scoreGE y x := scoreGE_trans (h.1 z hz) ((notAfter_iff x z).1 hpz)
      exact absurd hyx (not_scoreGE_of_positive hp)

theorem sortScores_concat_eq (l : List Entry) (x : Entry) :
    sortScores (l ++ [x]) =
      (sortScores l).filter (fun y => !isPositive (compareFn y x)) ++
        x :: (sortScores l).dropWhile (fun y => !isPositive (compareFn y x)) := by
  rw [sortScores_concat, insertEntry_eq, takeWhile_eq_filter_of_sorted x (sortScores_sorted l)]

theorem length_filter_sortScores (p : Entry → Bool) (l : List Entry) :
    ((sortScores l).filter p).length = (l.filter p).length :=
  ((sortScores_perm l).filter p).length_eq

theorem filter_scoreGE_eq (x : Entry) (l : List Entry) :
    l.filter (fun s => decide (scoreGE s x)) = l.filter (fun y => !isPositive (compareFn y x)) := by
  apply List.filter_congr
  intro y _
  by_cases h : scoreGE y x
  · simp [h, (notAfter_iff x y).2 h]
  · have : ¬ (!isPositive (compareFn y x)) = true := fun hh => h ((notAfter_iff x y).1 hh)
    simp only [Bool.not_eq_true] at this
    simp [h, this]

theorem take_sortScores_concat_of_le {stored : List Entry} {e : Entry} {n : Nat}
    (h : n ≤ (stored.filter (fun s => decide (scoreGE s e))).length) :
    (sortScores (stored ++ [e])).take n = (sortScores stored).take n := by
  rw [filter_scoreGE_eq, ← length_filter_sortScores] at h
  rw [sortScores_concat_eq, List.take_append_of_le_length h]
  conv_rhs => rw [← List.takeWhile_append_dropWhile (fun y => !isPositive (compareFn y e))
    (sortScores stored), takeWhile_eq_filter_of_sorted e (sortScores_sorted stored)]
  rw [List.take_append_of_le_length h]

theorem not_scoreGE_of_mem_dropWhile (x : Entry) {l : List Entry} (h : SortedDesc l) {y : Entry}
    (hy : y ∈ l.dropWhile (fun y => !isPositive (compareFn y x))) : ¬ scoreGE y x := by
  induction l with
  | nil => simp at hy
  | cons a t ih =>
    unfold SortedDesc at h ih
    rw [List.pairwise_cons] at h
    cases hp : isPositive (compareFn a x) with
    | false =>
      simp only [List.dropWhile_cons, hp, Bool.not_false, if_true] at hy
      exact ih h.2 hy
    | true =>
      simp only [List.dropWhile_cons, hp, Bool.not_true, Bool.false_eq_true, if_false] at hy
      intro hyx
      rcases List.mem_cons.1 hy with rfl | hy
      · exact not_scoreGE_of_positive hp hyx
      · exact not_scoreGE_of_positive hp (scoreGE_trans (h.1 y hy) hyx)

/-- The sort is stable: the entries whose score has a given numeric value keep their
relative order. -/
theorem sortScores_stable (n : Num) (l : List Entry) :
    (sortScores l).filter (fun y => decide (y.score.toNumber = n)) =
      l.filter (fun y => decide (y.score.toNumber = n)) := by
  induction l using List.reverseRecOn with
  | nil => rfl
  | append_singleton l x ih =>
    have hsplit := List.takeWhile_append_dropWhile (fun y => !isPositive (compareFn y x))
      (sortScores l)
    rw [sortScores_concat, insertEntry_eq, List.filter_append, List.filter_append,
      List.filter_cons, ← ih]
    conv_rhs => rw [← hsplit, List.filter_append]
    by_cases hx : x.score.toNumber = n
    · have hD : ((sortScores l).dropWhile (fun y => !isPositive (compareFn y x))).filter
          (fun y => decide (y.score.toNumber = n)) = [] := by
        rw [List.filter_eq_nil_iff]
        intro y hy hpy
        have hyn : y.score.toNumber = n := by simpa using hpy
        refine not_scoreGE_of_mem_dropWhile x (sortScores_sorted l) hy ?_
        unfold scoreGE
        rw [hyn, hx]
        exact Num.le_refl n
      simp [hx, hD]
    · simp [hx]

/-! ## The rank lookup -/

theorem findIndex_of_forall_false {p : Entry → Bool} {l : List Entry}
    (h : ∀ s ∈ l, p s = false) : findIndex p l = -1 := by
  unfold findIndex
  rw [List.findIdx?_eq_none_iff.2 h]

theorem findIndex_of_exists {p : Entry → Bool} {l : List Entry} (h : ∃ s ∈ l, p s = true) :
    ∃ i : Nat, findIndex p l = (i : ℤ) ∧ ∃ hi : i < l.length, p l[i] = true ∧
      ∀ j (hj : j < i), p (l.get ⟨j, Nat.lt_trans hj hi⟩) = false := by
  cases hf : l.findIdx? p with
  | none =>
    rw [List.findIdx?_eq_none_iff] at hf
    obtain ⟨s, hs, hps⟩ := h
    rw [hf s hs] at hps
    cases hps
  | some i =>
    refine ⟨i, by simp [findIndex, hf], ?_⟩
    obtain ⟨hi, hp, hlt⟩ := List.findIdx?_eq_some_iff_getElem.1 hf
    exact ⟨hi, hp, fun j hj => by simpa using hlt j hj⟩

theorem matchesSubmission_iff (playerId : JsVal) (e s : Entry) :
    matchesSubmission playerId e s = true ↔
      s.playerId = playerId ∧ s.score = e.score ∧ s.date = e.date := by
  simp [matchesSubmission, and_assoc]

/-! ## Truncation and rank (C5, C6) -/

set_option maxRecDepth 100000 in
/-- C5, counterexample: the stored collection holds 99 entries with score 9 and one
entry of player `p1` with score 5 and date `2024-01-01T00:00:01.000Z`; the body
`{"name": "Ann", "score": 5, "playerId": "p1"}` handled at that same instant meets 100
stored scores that are greater or equal, is truncated away (the written array is the
stored collection), and the answer reports rank 100, not 0. -/
theorem submitScore_truncated_rank_nonzero :
    100 ≤ ((List.replicate 99 (⟨[90], .num (.int 9), .str [112, 50], sampleDate⟩ : Entry) ++
        [(⟨[65], .num (.int 5), .str [112, 49], sampleDate2⟩ : Entry)]).filter
          (fun s => decide (scoreGE s ⟨[65, 110, 110], .num (.int 5), .str [112, 49],
            sampleDate2⟩))).length ∧
    submitScore
        (List.replicate 99 ⟨[90], .num (.int 9), .str [112, 50], sampleDate⟩ ++
          [⟨[65], .num (.int 5), .str [112, 49], sampleDate2⟩])
        ⟨.str [65, 110, 110], .num (.fin 5), .str [112, 49]⟩ sampleDate2 true =
      .saved
        (List.replicate 99 ⟨[90], .num (.int 9), .str [112, 50], sampleDate⟩ ++
          [⟨[65], .num (.int 5), .str [112, 49], sampleDate2⟩])
        100 ⟨[65, 110, 110], .num (.int 5), .str [112, 49], sampleDate2⟩ := by
  constructor <;> decide

/-- C5, amended: when the stored collection contains at least 100 entries whose score
is greater than or equal to the score of the new entry, an accepted submission whose
write succeeds truncates the new entry away: the written array is the first 100
entries of the sorted stored collection. It reports rank 0 and the written array holds
no entry equal to the new one provided no stored entry has the playerId, score and
date of the new entry. -/
theorem submitScore_truncated (stored : List Entry) (req : Request) (now : JsString)
    (scores : List Entry) (rank : ℤ) (e : Entry)
    (h : submitScore stored req now true = .saved scores rank e)
    (h100 : 100 ≤ (stored.filter (fun s => decide (scoreGE s e))).length) :
    scores = (sortScores stored).take 100 ∧ scores.length = 100 ∧
    ((∀ s ∈ stored, ¬ (s.playerId = e.playerId ∧ s.score = e.score ∧ s.date = e.date)) →
      rank = 0 ∧ e ∉ scores) := by
  obtain ⟨name, score, -, -, -, -, -, he, hs, hr⟩ := submitScore_saved h
  have hs2 : scores = (sortScores stored).take 100 := by
    rw [hs]; exact take_sortScores_concat_of_le h100
  have hpid : e.playerId = req.playerId := by rw [he]; rfl
  have hlen : 100 ≤ stored.length := h100.trans (List.length_filter_le _ _)
  refine ⟨hs2, ?_, fun hno => ?_⟩
  · rw [hs2, List.length_take, length_sortScores]; omega
  · have hmem : ∀ s ∈ scores, s ∈ stored := by
      intro s hsm
      rw [hs2] at hsm
      exact mem_sortScores.1 (List.mem_of_mem_take hsm)
    constructor
    · rw [hr, findIndex_of_forall_false]
      · rfl
      · intro s hsm
        cases hm : matchesSubmission req.playerId e s with
        | false => rfl
        | true =>
          rw [matchesSubmission_iff, ← hpid] at hm
          exact absurd hm (hno s (hmem s hsm))
    · intro hin
      exact hno e (hmem e hin) ⟨rfl, rfl, rfl⟩

set_option maxRecDepth 100000 in
/-- C5, witness: 100 stored entries of player `p2` with score 9, and the body
`{"name": "Ann", "score": 5, "playerId": "p1"}`. -/
theorem submitScore_truncated_witness :
    100 ≤ ((List.replicate 100 (⟨[90], .num (.int 9), .str [112, 50], sampleDate⟩ : Entry)).filter
      (fun s => decide (scoreGE s
        (newEntry [65, 110, 110] (.fin 5) (.str [112, 49]) sampleDate2)))).length ∧
    (sortScores (List.replicate 100 (⟨[90], .num (.int 9), .str [112, 50], sampleDate⟩ : Entry) ++
        [newEntry [65, 110, 110] (.fin 5) (.str [112, 49]) sampleDate2])).take 100 =
      (sortScores (List.replicate 100 ⟨[90], .num (.int 9), .str [112, 50], sampleDate⟩)).take
        100 :=
  have h100 : 100 ≤ ((List.replicate 100
      (⟨[90], .num (.int 9), .str [112, 50], sampleDate⟩ : Entry)).filter
      (fun s => decide (scoreGE s
        (newEntry [65, 110, 110] (.fin 5) (.str [112, 49]) sampleDate2)))).length := by
    decide
  ⟨h100, (submitScore_truncated
    (List.replicate 100 ⟨[90], .num (.int 9), .str [112, 50], sampleDate⟩)
    ⟨.str [65, 110, 110], .num (.fin 5), .str [112, 49]⟩ sampleDate2 _ _ _
    (submitScore_valid _ [65, 110, 110] (.fin 5) (.str [112, 49]) sampleDate2
      (by decide) (by decide)) h100).1⟩

/-- C6, counterexample: the stored collection holds the entry of player `p1` named `A`
with score 5 and date `2024-01-01T00:00:00.000Z`; the body
`{"name": "Bob", "score": 5, "playerId": "p1"}` handled at that same instant is
retained at position 2, but the answer reports rank 1, where the entry named `A`
stands. -/
theorem submitScore_rank_of_other_entry :
    submitScore [⟨[65], .num (.int 5), .str [112, 49], sampleDate⟩]
        ⟨.str [66, 111, 98], .num (.fin 5), .str [112, 49]⟩ sampleDate true =
      .saved
        [⟨[65], .num (.int 5), .str [112, 49], sampleDate⟩,
         ⟨[66, 111, 98], .num (.int 5), .str [112, 49], sampleDate⟩]
        1 ⟨[66, 111, 98], .num (.int 5), .str [112, 49], sampleDate⟩ ∧
    ([⟨[65], .num (.int 5), .str [112, 49], sampleDate⟩,
      ⟨[66, 111, 98], .num (.int 5), .str [112, 49], sampleDate⟩] : List Entry)[0]? =
      some ⟨[65], .num (.int 5), .str [112, 49], sampleDate⟩ ∧
    (⟨[65], .num (.int 5), .str [112, 49], sampleDate⟩ : Entry).name ≠
      (⟨[66, 111, 98], .num (.int 5), .str [112, 49], sampleDate⟩ : Entry).name := by
  refine ⟨by decide, by decide, by decide⟩

/-- C6, amended: for every stored collection and every accepted submission whose write
succeeds, the returned rank is the 1-based position of the first entry of the written
(sorted, truncated) array that has the playerId, score and date of the new entry:
whenever the new entry is retained, `1 ≤ rank ≤ 100`, the entry at position `rank` has
the same playerId, score and date as the new entry, and no earlier entry has; it is the
new entry itself when no stored entry has that playerId, score and date. -/
theorem submitScore_rank (stored : List Entry) (req : Request) (now : JsString)
    (scores : List Entry) (rank : ℤ) (e : Entry)
    (h : submitScore stored req now true = .saved scores rank e) (hret : e ∈ scores) :
    1 ≤ rank ∧ rank ≤ 100 ∧
    ∃ s, scores[(rank - 1).toNat]? = some s ∧
      (s.playerId = e.playerId ∧ s.score = e.score ∧ s.date = e.date) ∧
      (∀ j t, j < (rank - 1).toNat → scores[j]? = some t →
        ¬ (t.playerId = e.playerId ∧ t.score = e.score ∧ t.date = e.date)) ∧
      ((∀ t ∈ stored, ¬ (t.playerId = e.playerId ∧ t.score = e.score ∧ t.date = e.date)) →
        s = e) := by
  obtain ⟨name, score, -, -, -, -, -, he, -, hr⟩ := submitScore_saved h
  have hpid : req.playerId = e.playerId := by rw [he]; rfl
  rw [hpid] at hr
  obtain ⟨i, hi, hlt, hp, hfirst⟩ := findIndex_of_exists
    (p := matchesSubmission e.playerId e) (l := scores)
    ⟨e, hret, (matchesSubmission_iff _ _ _).2 ⟨rfl, rfl, rfl⟩⟩
  have hrank : rank = (i : ℤ) + 1 := by rw [hr, hi]
  have hidx : (rank - 1).toNat = i := by rw [hrank]; simp
  have hlen := (saved_length_sorted h).1
  refine ⟨by omega, by omega, scores[i], ?_, (matchesSubmission_iff _ _ _).1 hp, ?_, ?_⟩
  · rw [hidx]; exact List.getElem?_eq_getElem hlt
  · intro j t hj ht hm
    rw [hidx] at hj
    have hjl : j < scores.length := Nat.lt_trans hj hlt
    have h1 := hfirst j hj
    rw [List.getElem?_eq_getElem hjl] at ht
    injection ht with ht
    rw [List.get_eq_getElem, ht, (matchesSubmission_iff _ _ _).2 hm] at h1
    cases h1
  · intro hno
    rcases mem_of_mem_saved h (List.getElem_mem hlt) with hm | hm
    · exact absurd ((matchesSubmission_iff _ _ _).1 hp) (hno _ hm)
    · exact hm

/-- C6, witness: the body `{"name": "Bob", "score": 50, "playerId": "p2"}` sent to a
stored collection holding Ann with score 42. -/
theorem submitScore_rank_witness :
    newEntry [66, 111, 98] (.fin 50) (.str [112, 50]) sampleDate2 ∈
      (sortScores ([⟨[65, 110, 110], .num (.int 42), .str [112, 49], sampleDate⟩] ++
        [newEntry [66, 111, 98] (.fin 50) (.str [112, 50]) sampleDate2])).take 100 ∧
    (1 : ℤ) ≤ findIndex
      (matchesSubmission (.str [112, 50])
        (newEntry [66, 111, 98] (.fin 50) (.str [112, 50]) sampleDate2))
      ((sortScores ([⟨[65, 110, 110], .num (.int 42), .str [112, 49], sampleDate⟩] ++
        [newEntry [66, 111, 98] (.fin 50) (.str [112, 50]) sampleDate2])).take 100) + 1 :=
  ⟨by decide,
    (submitScore_rank [⟨[65, 110, 110], .num (.int 42), .str [112, 49], sampleDate⟩]
      ⟨.str [66, 111, 98], .num (.fin 50), .str [112, 50]⟩ sampleDate2 _ _ _
      (submitScore_valid _ [66, 111, 98] (.fin 50) (.str [112, 50]) sampleDate2
        (by decide) (by decide)) (by decide)).1⟩

/-! ## What a submission discards (C10) -/

theorem take_ge_drop_of_sorted {l : List Entry} (h : SortedDesc l) (n : Nat) :
    ∀ x ∈ l.drop n, ∀ y ∈ l.take n, scoreGE y x := by
  unfold SortedDesc at h
  rw [← List.take_append_drop n l, List.pairwise_append] at h
  intro x hx y hy
  exact h.2.2 y hy x hx

theorem jsonEntry_newEntry {name : JsString} {score : JsNum} {playerId : JsVal} {now : JsString}
    (hs : score ≠ .posInf ∧ score ≠ .negInf) (hp : jsonVal playerId = playerId) :
    jsonEntry (newEntry name score playerId now) = newEntry name score playerId now := by
  cases score with
  | fin q => simp [jsonEntry, newEntry, mathFloor, jsonScore, hp]
  | posInf => exact absurd rfl hs.1
  | negInf => exact absurd rfl hs.2

theorem scoreGE_jsonEntry_left {x y : Entry} (hy : y.hasIntScore) (h : scoreGE y x) :
    scoreGE (jsonEntry y) x := by
  unfold scoreGE at h ⊢
  rw [jsonEntry_score_of_int hy]
  exact h

set_option maxRecDepth 100000 in
/-- C10, counterexample: (a) the stored collection holds 100 entries with score 5 and
the body `{"name": "B", "score": 1e999, "playerId": "p2"}` is written: the file then
holds an entry named `B` with score `null`, which is not an entry of the stored
collection plus the new entry, in front of 99 entries with score 5, and the dropped
entry with score 5 does not have a score less than or equal to that `null`; (b) the
body `{"name": "B", "score": 5, "playerId": 1e999}` sent to the empty store leaves an
entry with playerId `null` in the file, which is not the new entry; (c) a stored entry
whose playerId is `Infinity` (a file with `"playerId": 1e999`) is written back with
playerId `null`. -/
theorem step_infinite_not_submultiset :
    (step (List.replicate 100 ⟨[65], .num (.int 5), .str [112, 49], sampleDate⟩)
        ⟨⟨.str [66], .num .posInf, .str [112, 50]⟩, sampleDate2, true, true⟩ =
      ⟨[66], .null, .str [112, 50], sampleDate2⟩ ::
        List.replicate 99 ⟨[65], .num (.int 5), .str [112, 49], sampleDate⟩ ∧
     (⟨[66], .null, .str [112, 50], sampleDate2⟩ : Entry) ∉
      List.replicate 100 (⟨[65], .num (.int 5), .str [112, 49], sampleDate⟩ : Entry) ++
        [newEntry [66] .posInf (.str [112, 50]) sampleDate2] ∧
     ¬ scoreGE ⟨[66], .null, .str [112, 50], sampleDate2⟩
        ⟨[65], .num (.int 5), .str [112, 49], sampleDate⟩) ∧
    (step [] ⟨⟨.str [66], .num (.fin 5), .num .posInf⟩, sampleDate2, true, true⟩ =
      [⟨[66], .num (.int 5), .null, sampleDate2⟩] ∧
     (⟨[66], .num (.int 5), .null, sampleDate2⟩ : Entry) ∉
      ([] : List Entry) ++ [newEntry [66] (.fin 5) (.num .posInf) sampleDate2]) ∧
    (step [⟨[65], .num (.int 5), .num .posInf, sampleDate⟩]
        ⟨⟨.str [66], .num (.fin 7), .str [112, 50]⟩, sampleDate2, true, true⟩ =
      [⟨[66], .num (.int 7), .str [112, 50], sampleDate2⟩,
       ⟨[65], .num (.int 5), .null, sampleDate⟩] ∧
     (⟨[65], .num (.int 5), .null, sampleDate⟩ : Entry) ∉
      ([⟨[65], .num (.int 5), .num .posInf, sampleDate⟩] : List Entry) ++
        [newEntry [66] (.fin 7) (.str [112, 50]) sampleDate2]) := by
  refine ⟨⟨by decide, by decide, by decide⟩, ⟨by decide, by decide⟩, ⟨by decide, by decide⟩⟩

/-- C10, amended: for every stored collection `S` and every accepted submission with new
entry `e` whose write succeeds, the array `P` handed to the write together with a
remainder is a permutation of `S` plus `e`, `P` has `min(100, |S| + 1)` entries, and
every entry of the remainder has a score less than or equal to the score of every
entry of `P`; when `|S| < 100` the remainder is empty, so every entry of `S` and `e`
are retained. The file holds the JSON encoding of `P`, with the same number of entries;
when `S` has integer scores and the submitted score is finite, every entry of the
remainder has a score less than or equal to the score of every entry of the file; and
the file holds exactly `P` when moreover the stored entries and the submitted playerId
are unchanged by the JSON encoding. -/
theorem submitScore_discards_lowest (stored : List Entry) (req : Request) (now : JsString)
    (scores : List Entry) (rank : ℤ) (e : Entry)
    (h : submitScore stored req now true = .saved scores rank e) :
    (∃ rest, (stored ++ [e]).Perm (scores ++ rest) ∧
      scores.length = min 100 (stored.length + 1) ∧
      (∀ x ∈ rest, ∀ y ∈ scores, scoreGE y x) ∧
      (stored.length < 100 → rest = [] ∧ scores.Perm (stored ++ [e])) ∧
      ((∀ x ∈ stored, x.hasIntScore) → req.finiteScore →
        ∀ x ∈ rest, ∀ y ∈ step stored ⟨req, now, true, true⟩, scoreGE y x)) ∧
    step stored ⟨req, now, true, true⟩ = scores.map jsonEntry ∧
    (step stored ⟨req, now, true, true⟩).length = min 100 (stored.length + 1) ∧
    ((∀ x ∈ stored, jsonEntry x = x) → req.finiteScore → jsonVal req.playerId = req.playerId →
      step stored ⟨req, now, true, true⟩ = scores) := by
  obtain ⟨name, score, -, hsc, -, -, -, he, hs, -⟩ := submitScore_saved h
  have hstep : step stored ⟨req, now, true, true⟩ = scores.map jsonEntry := by
    simp [step, readLeaderboard, h]
  have hlen : scores.length = min 100 (stored.length + 1) := by
    rw [hs, List.length_take, length_sortScores]; simp
  have horder : ∀ x ∈ (sortScores (stored ++ [e])).drop 100, ∀ y ∈ scores, scoreGE y x := by
    rw [hs]
    exact take_ge_drop_of_sorted (sortScores_sorted _) 100
  refine ⟨⟨(sortScores (stored ++ [e])).drop 100, ?_, hlen, horder, ?_, ?_⟩, hstep, ?_, ?_⟩
  · rw [hs, List.take_append_drop]
    exact (sortScores_perm _).symm
  · intro hlt
    have hle : (sortScores (stored ++ [e])).length ≤ 100 := by
      rw [length_sortScores]; simp; omega
    rw [hs, List.take_of_length_le hle]
    exact ⟨List.drop_eq_nil_of_le hle, sortScores_perm _⟩
  · intro hint hfin x hx y hy
    rw [hstep] at hy
    obtain ⟨z, hz, rfl⟩ := List.mem_map.1 hy
    exact scoreGE_jsonEntry_left (saved_all_int h hfin hint z hz) (horder x hx z hz)
  · rw [hstep, List.length_map, hlen]
  · intro hst hfin hpid
    rw [hstep]
    conv_rhs => rw [← List.map_id scores]
    apply List.map_congr_left
    intro x hx
    rcases mem_of_mem_saved h hx with hx | rfl
    · simpa using hst x hx
    · rw [he]
      have hf : score ≠ .posInf ∧ score ≠ .negInf := by
        refine ⟨fun h0 => hfin.1 ?_, fun h0 => hfin.2 ?_⟩
        · rw [hsc, h0]
        · rw [hsc, h0]
      simpa using jsonEntry_newEntry hf hpid

set_option maxRecDepth 100000 in
/-- C10, witness: the body `{"name": "Bob", "score": 50, "playerId": "p2"}` sent to a
stored collection of 100 entries with score 5: one entry with score 5 is discarded and
the file holds the 100 entries handed to the write. -/
theorem submitScore_discards_lowest_witness :
    (sortScores (List.replicate 100 (⟨[65], .num (.int 5), .str [112, 49], sampleDate⟩ : Entry) ++
        [newEntry [66, 111, 98] (.fin 50) (.str [112, 50]) sampleDate2])).drop 100 =
      [⟨[65], .num (.int 5), .str [112, 49], sampleDate⟩] ∧
    step (List.replicate 100 ⟨[65], .num (.int 5), .str [112, 49], sampleDate⟩)
        ⟨⟨.str [66, 111, 98], .num (.fin 50), .str [112, 50]⟩, sampleDate2, true, true⟩ =
      (sortScores (List.replicate 100 ⟨[65], .num (.int 5), .str [112, 49], sampleDate⟩ ++
        [newEntry [66, 111, 98] (.fin 50) (.str [112, 50]) sampleDate2])).take 100 ∧
    (step (List.replicate 100 ⟨[65], .num (.int 5), .str [112, 49], sampleDate⟩)
        ⟨⟨.str [66, 111, 98], .num (.fin 50), .str [112, 50]⟩, sampleDate2, true, true⟩).length =
      min 100 ((List.replicate 100
        (⟨[65], .num (.int 5), .str [112, 49], sampleDate⟩ : Entry)).length + 1) :=
  have h := submitScore_discards_lowest
    (List.replicate 100 ⟨[65], .num (.int 5), .str [112, 49], sampleDate⟩)
    ⟨.str [66, 111, 98], .num (.fin 50), .str [112, 50]⟩ sampleDate2 _ _ _
    (submitScore_valid _ [66, 111, 98] (.fin 50) (.str [112, 50]) sampleDate2
      (by decide) (by decide))
  ⟨by decide, h.2.2.2 (by decide) (by simp [Request.finiteScore]) rfl, h.2.2.1⟩

/-! ## The read routes (C7, C8) -/

/-- C7: for every stored collection of `n` entries, `getTopScores` returns exactly
`min(10, n)` entries, sorted by score in non-increasing order, each of them an entry
of the stored collection, and the stored entries it leaves out do not have a score
strictly greater than the score of a returned entry. After submitting Ann with 42.9
and then Bob with 50 to the empty store it returns Bob before Ann. -/
theorem getTopScores_spec (stored : List Entry) (d1 d2 : JsString) :
    (getTopScores stored).length = min 10 stored.length ∧
    SortedDesc (getTopScores stored) ∧
    (∀ x ∈ getTopScores stored, x ∈ stored) ∧
    (∃ rest, stored.Perm (getTopScores stored ++ rest) ∧
      ∀ x ∈ rest, ∀ y ∈ getTopScores stored, scoreGE y x) ∧
    getTopScores (run []
        [⟨⟨.str [65, 110, 110], .num (.fin (429 / 10)), .str [112, 49]⟩, d1, true, true⟩,
         ⟨⟨.str [66, 111, 98], .num (.fin 50), .str [112, 50]⟩, d2, true, true⟩]) =
      [⟨[66, 111, 98], .num (.int 50), .str [112, 50], d2⟩,
       ⟨[65, 110, 110], .num (.int 42), .str [112, 49], d1⟩] := by
  refine ⟨?_, ?_, ?_, ?_, ?_⟩
  · simp [getTopScores, List.length_take, length_sortScores]
  · exact (sortScores_sorted stored).take 10
  · intro x hx
    exact mem_sortScores.1 (List.mem_of_mem_take hx)
  · refine ⟨(sortScores stored).drop 10, ?_, take_ge_drop_of_sorted (sortScores_sorted _) 10⟩
    unfold getTopScores
    rw [List.take_append_drop]
    exact (sortScores_perm _).symm
  · have hA : sanitizeName [65, 110, 110] = [65, 110, 110] := by decide
    have hB : sanitizeName [66, 111, 98] = [66, 111, 98] := by decide
    have h1 := submitScore_valid [] [65, 110, 110] (.fin (429 / 10)) (.str [112, 49]) d1
      (by decide) (by decide)
    have hf1 : mathFloor (.fin (429 / 10)) = .int 42 := by
      simp [mathFloor, Int.floor_eq_iff]; norm_num
    have hf2 : mathFloor (.fin 50) = .int 50 := by decide
    have h2 := submitScore_valid
      [⟨[65, 110, 110], .num (.int 42), .str [112, 49], d1⟩] [66, 111, 98] (.fin 50)
      (.str [112, 50]) d2 (by decide) (by decide)
    simp only [run, List.foldl, step, readLeaderboard, if_true, h1, hA, newEntry, hf1]
    simp only [sortScores, List.foldl, List.nil_append, insertEntry, List.take, List.map,
      jsonEntry, jsonScore, jsonVal]
    simp only [hB, newEntry, hf2] at h2
    simp only [h2]
    simp [sortScores, insertEntry, compareFn, Score.toNumber, Num.sub, isPositive, jsonEntry,
      jsonScore, jsonVal, getTopScores]

theorem sortScores_eq_nil_iff {l : List Entry} : sortScores l = [] ↔ l = [] := by
  rw [← List.length_eq_zero, length_sortScores, List.length_eq_zero]

/-- C8: for every stored collection and every requested playerId, `getPlayerBest`
returns `null` if and only if no stored entry has that playerId; otherwise it returns
a stored entry whose playerId is the requested one and whose score is greater than or
equal to the score of every stored entry with that playerId. The handler has no
failing path: it returns one of the two. -/
theorem getPlayerBest_spec (stored : List Entry) (playerId : JsString) :
    (getPlayerBest stored playerId = none ↔ ∀ s ∈ stored, s.playerId ≠ .str playerId) ∧
    (∀ b, getPlayerBest stored playerId = some b →
      b ∈ stored ∧ b.playerId = .str playerId ∧
        ∀ s ∈ stored, s.playerId = .str playerId → scoreGE b s) ∧
    ((∃ s ∈ stored, s.playerId = .str playerId) → ∃ b, getPlayerBest stored playerId = some b) := by
  have hmem : ∀ x, x ∈ sortScores (stored.filter (fun s => decide (s.playerId = .str playerId))) ↔
      x ∈ stored ∧ x.playerId = .str playerId := by
    intro x
    rw [mem_sortScores, List.mem_filter]
    simp
  have hsorted := sortScores_sorted (stored.filter (fun s => decide (s.playerId = .str playerId)))
  have hnone : getPlayerBest stored playerId = none ↔
      ∀ s ∈ stored, s.playerId ≠ .str playerId := by
    unfold getPlayerBest
    cases hl : sortScores (stored.filter (fun s => decide (s.playerId = .str playerId))) with
    | nil =>
      simp only [true_iff]
      intro s hs hp
      have := (hmem s).2 ⟨hs, hp⟩
      rw [hl] at this
      cases this
    | cons b t =>
      simp only [false_iff, reduceCtorEq]
      intro hall
      have := (hmem b).1 (by rw [hl]; exact List.mem_cons_self _ _)
      exact hall b this.1 this.2
  refine ⟨hnone, ?_, ?_⟩
  · intro b hb
    unfold getPlayerBest at hb
    cases hl : sortScores (stored.filter (fun s => decide (s.playerId = .str playerId))) with
    | nil => rw [hl] at hb; cases hb
    | cons c t =>
      rw [hl] at hb
      injection hb with hb
      subst hb
      have hc := (hmem c).1 (by rw [hl]; exact List.mem_cons_self _ _)
      refine ⟨hc.1, hc.2, ?_⟩
      intro s hs hp
      have hin := (hmem s).2 ⟨hs, hp⟩
      rw [hl] at hin hsorted
      unfold SortedDesc at hsorted
      rw [List.pairwise_cons] at hsorted
      rcases List.mem_cons.1 hin with rfl | hin
      · exact Num.le_refl _
      · exact hsorted.1 s hin
  · rintro ⟨s, hs, hp⟩
    cases hg : getPlayerBest stored playerId with
    | none => exact absurd hp (hnone.1 hg s hs)
    | some b => exact ⟨b, rfl⟩

/-- C8, witness: the best entry of player `p1` among three stored entries. -/
theorem getPlayerBest_spec_witness :
    getPlayerBest
        [⟨[65], .num (.int 3), .str [112, 49], sampleDate⟩,
         ⟨[66], .num (.int 9), .str [112, 50], sampleDate⟩,
         ⟨[65], .num (.int 7), .str [112, 49], sampleDate2⟩] [112, 49] =
      some ⟨[65], .num (.int 7), .str [112, 49], sampleDate2⟩ ∧
    scoreGE ⟨[65], .num (.int 7), .str [112, 49], sampleDate2⟩
      ⟨[65], .num (.int 3), .str [112, 49], sampleDate⟩ :=
  have hb : getPlayerBest
      [⟨[65], .num (.int 3), .str [112, 49], sampleDate⟩,
       ⟨[66], .num (.int 9), .str [112, 50], sampleDate⟩,
       ⟨[65], .num (.int 7), .str [112, 49], sampleDate2⟩] [112, 49] =
      some ⟨[65], .num (.int 7), .str [112, 49], sampleDate2⟩ := by decide
  ⟨hb, ((getPlayerBest_spec _ [112, 49]).2.1 _ hb).2.2 _ (by simp) rfl⟩

end Leaderboard
